import Mathlib

/-!
# Verification of the yarn.lock parser (`go-yarnlock`)

A shallow embedding of the repository's tokenizer (`Tokenizer.tokenize`),
recursive-descent parser (`Parser.parse`, `Parser.next`, `Parser.onComment`),
top-level entry point (`ParseLockFileData`), typed document (`LockFile`) and
`RootElement`, translated from `src/parser.go` and `src/unnamed/part_002`
(the two files contain the same tokenizer/parser logic; `part_002` adds the
`LockFile` layer).  Go strings are modelled as `List Char` (rune lists); for
valid UTF-8 input the byte-level scanning of the Go code coincides with the
rune-level scanning here on every byte the tokenizer actually dispatches on
(all dispatch characters are ASCII), except that `line`/`col` bookkeeping
counts runes instead of bytes.  Go `panic`/`recover` control flow is modelled
by explicit outcome types.
-/

namespace YarnLock

/-- Model of `ValueType` from `parser.go` (`TokenValueVoid` … `TokenValueBool`). -/
inductive ValueType
  | void | int | str | bool
deriving DecidableEq, Repr

/-- Model of `TokenType` from `parser.go`.  The Go type is an `int` whose named
constants start at 1; the zero value matches no constant and is only ever
used as the parser's initial placeholder token, which is overwritten by the
first `next()` before being inspected. -/
inductive TokenType
  | boolean | str | identifier | eof | colon | newLine | comment | indent
  | invalid | number | comma
deriving DecidableEq, Repr

/-- Model of `TokenValue` from `parser.go`: a struct with one field per variant and a
validity flag; Go zero values are the defaults. -/
structure TokenValue where
  int : Nat := 0
  str : String := ""
  bool : Bool := false
  valid : Bool := false
  valueType : ValueType := .void
deriving DecidableEq, Repr

/-- Model of `TokenValue.MarshalText` from `parser.go`. -/
def marshalText (t : TokenValue) : String :=
  match t.valueType with
  | .int => toString t.int
  | .bool => if t.bool then "true" else "false"
  | .str => t.str
  | .void => "void"

/-- Model of `Token.isString` (checks the value's type tag, not the token type). -/
def TokenValue.isStringVal (t : TokenValue) : Bool :=
  t.valueType == .str

/-- Model of `Token` from `parser.go`. -/
structure Token where
  line : Nat := 0
  col : Nat := 0
  type : TokenType := .invalid
  value : TokenValue := {}
deriving DecidableEq, Repr

/-- Payload helpers mirroring `buildToken`'s `TokenValue` construction
(`Valid` is set to true in every case). -/
def tvStr (s : String) : TokenValue := { str := s, valueType := .str, valid := true }

def tvBool (b : Bool) : TokenValue := { bool := b, valueType := .bool, valid := true }

def tvInt (n : Nat) : TokenValue := { int := n, valueType := .int, valid := true }

def tvVoid : TokenValue := { valid := true }

/-- Go error values that reach the caller of `ParseLockFileData`:
`errors.New` values, `_ParseErr` values, Go runtime errors (from index /
slice out-of-range panics) and `errors.Wrap`ped values. -/
inductive GoErr
  | new (msg : String)
  | parseErr (msg : String)
  | runtime (msg : String)
  | wrap (msg : String) (inner : GoErr)
deriving DecidableEq, Repr

/-- A Go `panic` argument as it is seen by `recover` in `ParseLockFileData`:
an `error` value (runtime errors), a `string`, or anything else (the
tokenizer's `panic(1)` passes an `int`). -/
inductive PanicVal
  | str (s : String)
  | goerr (e : GoErr)
  | int (n : Nat)
deriving DecidableEq, Repr

/-- Result of `Tokenizer.tokenize`: a normal return (the token slice or the
`errors.New` value) or an unwinding panic. -/
inductive TokResult
  | ok (tokens : List Token)
  | err (e : GoErr)
  | panic (v : PanicVal)
deriving Repr

/-- Model of `Tokenizer` state (`lastNewLine`, `line`, `col`, `tokens`); Go zero
values are the defaults. -/
structure TokState where
  lastNewLine : Bool := false
  line : Nat := 0
  col : Nat := 0
  tokens : List Token := []
deriving Repr

/-- Model of `buildToken` minus the `TokenInvalid` panic (which is handled at the
call sites): append one token carrying the current line/col. -/
def buildTok (st : TokState) (tt : TokenType) (tv : TokenValue) : TokState :=
  { st with tokens := st.tokens ++ [{ line := st.line, col := st.col, type := tt, value := tv }] }

/-- Model of `input[0] >= '0' && input[0] <= '9'` from the number rule. -/
def isDigitCh (c : Char) : Bool := '0' ≤ c && c ≤ '9'

/-- The `_strPattern` first-character class `^[a-zA-Z\/.-]`. -/
def isStrStartCh (c : Char) : Bool := c.isAlpha || c == '/' || c == '.' || c == '-'

/-- The bare-identifier delimiter set from the tokenizer's scan loop. -/
def isDelimCh (c : Char) : Bool :=
  c == ':' || c == ' ' || c == '\r' || c == '\n' || c == ','

/-- The space-counting loop `for i := 1; input[i] == ' '; i++` applied to
`input[1:]`: counts leading spaces, or `none` when the scan runs past the
end of the input (in Go this is an index-out-of-range panic, because the
loop condition has no bounds check). -/
def countSpacesFrom : List Char → Option Nat
  | [] => none
  | c :: cs => if c = ' ' then (countSpacesFrom cs).map (· + 1) else some 0

/-- The quoted-string scan: starting from index 1, find the first `"` that
is not escaped (`input[i-1] == '\\' && input[i-2] != '\\'`); returns the
index one past that `"`, or the input length when no unescaped `"` exists.
`p1`/`p2` are `input[i-1]`/`input[i-2]`; `input[i-2]` is only read when
`input[i-1]` is a backslash, which cannot happen at `i = 1`, so the initial
`p2` is never inspected (matching Go's short-circuit of `&&`). -/
def quoteScan (p2 p1 : Char) (i : Nat) : List Char → Nat
  | [] => i
  | c :: cs =>
      if c = '"' && !(p1 == '\\' && p2 != '\\') then i + 1
      else quoteScan p1 c (i + 1) cs

/-- Hex digit value, as accepted by `encoding/json`'s `getu4`. -/
def hexVal (c : Char) : Option Nat :=
  if '0' ≤ c ∧ c ≤ '9' then some (c.toNat - '0'.toNat)
  else if 'a' ≤ c ∧ c ≤ 'f' then some (c.toNat - 'a'.toNat + 10)
  else if 'A' ≤ c ∧ c ≤ 'F' then some (c.toNat - 'A'.toNat + 10)
  else none

/-- The Unicode replacement character used by `encoding/json` for invalid
surrogates. -/
def replCh : Char := Char.ofNat 0xFFFD

/-- Body decoder for `json.Unmarshal` of a JSON string (the part after the
opening `"`), modelling `encoding/json`'s `unquote`: standard escapes,
`\uXXXX` with UTF-16 surrogate-pair handling (invalid surrogates become
U+FFFD), unescaped control characters and truncated input are errors, and
any character after the closing `"` is an error (the tokenizer never
produces trailing characters). -/
def decodeStr : List Char → List Char → Option (List Char)
  | [], _ => none
  | '"' :: rest, acc => if rest.isEmpty then some acc.reverse else none
  | '\\' :: rest, acc =>
    match rest with
    | [] => none
    | e :: rest2 =>
      match e with
      | '"' => decodeStr rest2 ('"' :: acc)
      | '\\' => decodeStr rest2 ('\\' :: acc)
      | '/' => decodeStr rest2 ('/' :: acc)
      | 'b' => decodeStr rest2 (Char.ofNat 8 :: acc)
      | 'f' => decodeStr rest2 (Char.ofNat 12 :: acc)
      | 'n' => decodeStr rest2 ('\n' :: acc)
      | 'r' => decodeStr rest2 ('\r' :: acc)
      | 't' => decodeStr rest2 ('\t' :: acc)
      | 'u' =>
        match rest2 with
        | a :: b :: c :: d :: rest3 =>
          match hexVal a, hexVal b, hexVal c, hexVal d with
          | some ha, some hb, some hc, some hd =>
            let n := ((ha * 16 + hb) * 16 + hc) * 16 + hd
            if 0xD800 ≤ n ∧ n ≤ 0xDBFF then
              match h3 : rest3 with
              | '\\' :: 'u' :: a2 :: b2 :: c2 :: d2 :: rest4 =>
                match hexVal a2, hexVal b2, hexVal c2, hexVal d2 with
                | some ha2, some hb2, some hc2, some hd2 =>
                  let m := ((ha2 * 16 + hb2) * 16 + hc2) * 16 + hd2
                  if 0xDC00 ≤ m ∧ m ≤ 0xDFFF then
                    decodeStr rest4
                      (Char.ofNat (0x10000 + (n - 0xD800) * 1024 + (m - 0xDC00)) :: acc)
                  else decodeStr rest3 (replCh :: acc)
                | _, _, _, _ => decodeStr rest3 (replCh :: acc)
              | _ => decodeStr rest3 (replCh :: acc)
            else if 0xDC00 ≤ n ∧ n ≤ 0xDFFF then decodeStr rest3 (replCh :: acc)
            else decodeStr rest3 (Char.ofNat n :: acc)
          | _, _, _, _ => none
        | _ => none
      | _ => none
  | c :: rest, acc => if c.toNat < 0x20 then none else decodeStr rest (c :: acc)
termination_by l _ => l.length
decreasing_by all_goals simp_all only [List.length_cons] <;> omega

/-- Model of `json.Unmarshal([]byte(val), &s)` for the scanned quoted token `val`
(which always begins with `"`). -/
def jsonUnquote (l : List Char) : Option String :=
  match l with
  | '"' :: rest => (decodeStr rest []).map fun cs => String.mk cs
  | _ => none

/-- Model of `strconv.Atoi` on a digit string, with the `int64` overflow clamp
(`Atoi` returns `math.MaxInt64` together with `ErrRange` on overflow; the
tokenizer and `onComment` ignore the error and use the value). -/
def atoiClamp (ds : List Char) : Nat :=
  min (ds.foldl (fun n c => n * 10 + (c.toNat - '0'.toNat)) 0) (2 ^ 63 - 1)

/-- One step of the result of the `tokenize` dispatch chain: either the
whole tokenization halts (error return or panic), or the branch produced an
updated state plus the `chop` count. -/
inductive StepRes
  | halt (r : TokResult)
  | cont (st : TokState) (chop : Nat)
deriving Repr

/-- The body of `tokenize`'s big `if`/`else if` chain, in source order, for
a non-empty input `c :: cs`.  Each branch returns the updated tokenizer
state and `chop`; fatal branches halt (`errors.New` return, `panic(1)` from
`buildToken(TokenInvalid, …)`, or a Go runtime panic for the out-of-bounds
reads noted at `countSpacesFrom` and the comment rule). -/
def tokStep (st : TokState) (c : Char) (cs : List Char) : StepRes :=
  if c = '\n' ∨ c = '\r' then
    -- line terminator: chop a second char when input[1] == '\n'
    let chop := if cs.head? = some '\n' then 2 else 1
    .cont (buildTok { st with line := st.line + 1, col := 0 } .newLine tvVoid) chop
  else if c = '#' then
    match (cs.findIdx? (· = '\n')) with
    | some i => .cont (buildTok st .comment (tvStr (String.mk (cs.take i)))) (i + 1)
    | none =>
      -- nextNewLine is set to len(input) and then incremented by chop, so
      -- the slice input[chop:nextNewLine] reads one past the end
      .halt (.panic (.goerr (.runtime "slice bounds out of range")))
  else if c = ' ' then
    if st.lastNewLine then
      match countSpacesFrom cs with
      | none => .halt (.panic (.goerr (.runtime "index out of range")))
      | some k =>
        let indentSize := k + 1
        if indentSize % 2 = 1 then .halt (.err (.new "Invalid number of spaces"))
        else .cont (buildTok st .indent (tvInt (indentSize / 2))) indentSize
    else .cont st 1
  else if c = '"' then
    let i := quoteScan ' ' '"' 1 cs
    match jsonUnquote ((c :: cs).take i) with
    | some s => .cont (buildTok st .str (tvStr s)) i
    | none => .halt (.panic (.int 1))
  else if isDigitCh c then
    let ds := (c :: cs).takeWhile isDigitCh
    .cont (buildTok st .number (tvInt (atoiClamp ds))) ds.length
  else if ['t', 'r', 'u', 'e'].isPrefixOf (c :: cs) then
    .cont (buildTok st .boolean (tvBool true)) 4
  else if List.isSuffixOf ['f', 'a', 'l', 's', 'e'] (c :: cs) then
    .cont (buildTok st .boolean (tvBool false)) 5
  else if c = ':' then
    .cont (buildTok st .colon tvVoid) 1
  else if c = ',' then
    .cont (buildTok st .comma tvVoid) 1
  else if isStrStartCh c then
    let name := (c :: cs).takeWhile (fun ch => !isDelimCh ch)
    .cont (buildTok st .str (tvStr (String.mk name))) name.length
  else
    .halt (.panic (.int 1))

/-- The `tokenize` loop: dispatch on the head of the input, then run the
common tail of the loop body (`chop == 0` check, `col += chop`, the
`lastNewLine` update — whose `input[1]` read panics when a lone `'\r'` ends
the input — and `input = input[chop:]`); on empty input append the EOF
token and return. -/
def tokLoop (st : TokState) (input : List Char) : TokResult :=
  match input with
  | [] => .ok (buildTok st .eof tvVoid).tokens
  | c :: cs =>
    match tokStep st c cs with
    | .halt r => r
    | .cont st1 chop =>
      if h : chop = 0 then .panic (.int 1)
      else
        let st2 := { st1 with col := st1.col + chop }
        if c = '\r' ∧ cs = [] then .panic (.goerr (.runtime "index out of range"))
        else
          let lnl := c = '\n' ∨ (c = '\r' ∧ cs.head? = some '\n')
          tokLoop { st2 with lastNewLine := decide lnl } ((c :: cs).drop chop)
termination_by input.length
decreasing_by
  simp only [List.length_drop, List.length_cons]
  omega

/-- Model of `Tokenizer.tokenize` on a fresh `Tokenizer{}` (as used by
`ParseLockFileData`). -/
def tokenizeData (input : List Char) : TokResult := tokLoop {} input

/-! ## Parser -/

/-- Outcome of a parser operation: a normal return or an unwinding panic
(the parser reports every fatal condition via `panic`). -/
inductive POut (α : Type)
  | ok (a : α) | panic (v : PanicVal)
deriving Repr

/-- The mutable part of `Parser` that the parsing functions touch: the
current token (`p.token`), the cursor (`p.tokenPtr`) and the comment list
(`p.comments`).  The token slice and `fileLoc` never change and are passed
separately. -/
structure PCore where
  cur : Token
  ptr : Nat
  cms : List String
deriving Repr

/-- Model of `unicode.IsSpace` restricted to the characters that can occur here
(ASCII whitespace plus U+0085/U+00A0; the remaining Unicode space
categories are not modelled — no dispatch in this code can meet them). -/
def isGoSpace (c : Char) : Bool :=
  c == ' ' || ('\t' ≤ c && c ≤ '\x0d') || c.toNat == 0x85 || c.toNat == 0xA0

/-- Model of `strings.TrimSpace`. -/
def goTrimSpace (s : String) : String :=
  String.mk (((s.toList.dropWhile isGoSpace).reverse.dropWhile isGoSpace).reverse)

/-- Model of `_versionRegex = ^yarn lockfile v(\d+)$` applied with
`FindStringSubmatch`: on a match, the digits of the capture group. -/
def versionRegexMatch (s : String) : Option (List Char) :=
  let l := s.toList
  let pre := "yarn lockfile v".toList
  if pre.isPrefixOf l then
    let rest := l.drop pre.length
    if rest ≠ [] ∧ rest.all isDigitCh then some rest else none
  else none

/-- Model of `LockfileVersion` from `parser.go`. -/
def LockfileVersion : Nat := 1

/-- The exact panic message of the version gate in `onComment` (the Go
source spells a literal backslash-backtick around the command). -/
def versionMsg (version : Nat) : String :=
  "Can't install from a lockfile of version " ++ toString version ++
  " as you're on an old yarn version that only supports versions up to " ++
  toString LockfileVersion ++
  ". Run \\`$ yarn self-update\\` to upgrade to the latest version."

/-- Model of `Parser.onComment`: checks the token payload is a string, trims it,
applies the version gate, then appends the comment. -/
def onComment (t : Token) (cms : List String) : POut (List String) :=
  if ¬ t.value.isStringVal then .panic (.str "expected token value to be a string")
  else
    let comment := goTrimSpace t.value.str
    match versionRegexMatch comment with
    | some ds =>
      let version := atoiClamp ds
      if version > LockfileVersion then .panic (.str (versionMsg version))
      else .ok (cms ++ [comment])
    | none => .ok (cms ++ [comment])

/-- The scan performed by `Parser.next` on the tokens from the cursor on:
skip comments (feeding them to `onComment`), return the first other token
together with the number of tokens consumed; panics with "No more tokens"
when the slice is exhausted. -/
def nextAux : List Token → List String → POut (Token × Nat × List String)
  | [], _ => .panic (.str "No more tokens")
  | tk :: rs, cms =>
    if tk.type = .comment then
      match onComment tk cms with
      | .panic v => .panic v
      | .ok cms' =>
        match nextAux rs cms' with
        | .panic v => .panic v
        | .ok (t, n, c2) => .ok (t, n + 1, c2)
    else .ok (tk, 1, cms)

/-- Model of `Parser.next`: advance the cursor past comments and set the current
token. -/
def nextTok (toks : List Token) (c : PCore) : POut PCore :=
  match nextAux (toks.drop c.ptr) c.cms with
  | .panic v => .panic v
  | .ok (tk, n, cms') => .ok { cur := tk, ptr := c.ptr + n, cms := cms' }

theorem nextAux_bounds {l : List Token} {cms : List String} {t : Token} {n : Nat}
    {c2 : List String} (h : nextAux l cms = .ok (t, n, c2)) : 1 ≤ n ∧ n ≤ l.length := by
  induction l generalizing cms n c2 with
  | nil => simp [nextAux] at h
  | cons tk rs ih =>
    by_cases htk : tk.type = .comment
    · simp only [nextAux, if_pos htk] at h
      match ho : onComment tk cms with
      | .panic v => rw [ho] at h; exact absurd h (by simp)
      | .ok cms' =>
        rw [ho] at h; dsimp only at h
        match ha : nextAux rs cms' with
        | .panic v => rw [ha] at h; exact absurd h (by simp)
        | .ok (t', n', c2') =>
          rw [ha] at h; dsimp only at h
          simp only [POut.ok.injEq, Prod.mk.injEq] at h
          obtain ⟨h1, h2, h3⟩ := h
          subst h1; subst h3
          have hb := ih ha
          simp only [List.length_cons]
          omega
    · simp only [nextAux, if_neg htk] at h
      simp only [POut.ok.injEq, Prod.mk.injEq] at h
      obtain ⟨_, h2, _⟩ := h
      subst h2
      simp

theorem nextTok_bounds {toks : List Token} {c c' : PCore}
    (h : nextTok toks c = .ok c') : c.ptr < c'.ptr ∧ c'.ptr ≤ toks.length := by
  unfold nextTok at h
  match ha : nextAux (toks.drop c.ptr) c.cms with
  | .panic v => rw [ha] at h; exact absurd h (by simp)
  | .ok (tk, n, cms') =>
    rw [ha] at h
    have hb := nextAux_bounds ha
    simp only [List.length_drop] at hb
    simp only [POut.ok.injEq] at h
    subst h
    constructor
    · simp; omega
    · simp; omega

/-- A parsed value (`interface{}`): a scalar `TokenValue` or the
`map[TokenValue]interface{}` built by `parse`, kept as an association list
with Go-map update semantics (`mapInsert`). -/
inductive GVal
  | scalar (v : TokenValue)
  | obj (m : List (TokenValue × GVal))

/-- Go map assignment `obj[key] = v`: replace in place, else append. -/
def mapInsert (m : List (TokenValue × GVal)) (k : TokenValue) (v : GVal) :
    List (TokenValue × GVal) :=
  match m with
  | [] => [(k, v)]
  | (k', v') :: rest => if k' = k then (k, v) :: rest else (k', v') :: mapInsert rest k v

/-- Go map lookup. -/
def mapLookup (m : List (TokenValue × GVal)) (k : TokenValue) : Option GVal :=
  match m with
  | [] => none
  | (k', v') :: rest => if k' = k then some v' else mapLookup rest k

/-- Model of `isValidPropValueToken` from `parser.go`. -/
def isValidPropValueToken (t : Token) : Bool :=
  t.type == .boolean || t.type == .str || t.type == .number

/-- Model of `Parser.unexpected`: the panic value, `fmt.Sprintf("%s%d:%d in %s", …)`
formatted from the parser's current token and `fileLoc`. -/
def unexpectedPanic (msg : String) (t : Token) (loc : String) : PanicVal :=
  .str (if msg = "" then "Unexpected token"
        else msg ++ toString t.line ++ ":" ++ toString t.col ++ " in " ++ loc)

/-- The Go integer value of a `TokenType` constant (`iota + 1`). -/
def ttInt (t : TokenType) : Nat :=
  match t with
  | .boolean => 1 | .str => 2 | .identifier => 3 | .eof => 4 | .colon => 5
  | .newLine => 6 | .comment => 7 | .indent => 8 | .invalid => 9
  | .number => 10 | .comma => 11

/-- The Go integer value of a `ValueType` constant (`iota`). -/
def vtInt (t : ValueType) : Nat :=
  match t with
  | .void => 0 | .int => 1 | .str => 2 | .bool => 3

/-- Model of `fmt.Sprintf("%v", tokenValue)`: Go's default struct formatting. -/
def goFmtTokenValue (v : TokenValue) : String :=
  "\x7b" ++ toString v.int ++ " " ++ v.str ++ " " ++
  (if v.bool then "true" else "false") ++ " " ++
  (if v.valid then "true" else "false") ++ " " ++ toString (vtInt v.valueType) ++ "\x7d"

/-- Model of `fmt.Sprintf("%v", token)`: Go's default struct formatting. -/
def goFmtToken (t : Token) : String :=
  "\x7b" ++ toString t.line ++ " " ++ toString t.col ++ " " ++ toString (ttInt t.type) ++
  " " ++ goFmtTokenValue t.value ++ "\x7d"

/-- The `for p.token.Type == TokenComma` loop of `Parser.parse` that
collects the comma-separated extra keys: on a comma, advance; a non-string
current token is the fatal `unexpected("Expected string")`; an invalid
payload is the fatal `panic("Expected a key")`; otherwise append the key
and advance. -/
def collectKeys (toks : List Token) (loc : String) (keys : List TokenValue) (c : PCore) :
    POut (List TokenValue × PCore) :=
  if c.cur.type = .comma then
    match h1 : nextTok toks c with
    | .panic v => .panic v
    | .ok c1 =>
      if c1.cur.type ≠ .str then .panic (unexpectedPanic "Expected string" c1.cur loc)
      else if c1.cur.value.valid = false then .panic (.str "Expected a key")
      else
        match h2 : nextTok toks c1 with
        | .panic v => .panic v
        | .ok c2 =>
          have hb1 := nextTok_bounds h1
          have hb2 := nextTok_bounds h2
          collectKeys toks loc (keys ++ [c1.cur.value]) c2
  else .ok (keys, c)
termination_by toks.length - c.ptr
decreasing_by omega

/-- Branch equation for `collectKeys`: the comma / string-key step. -/
theorem collectKeys_step {toks : List Token} {loc : String} {keys : List TokenValue}
    {c c1 : PCore} (hcomma : c.cur.type = .comma) (h1 : nextTok toks c = .ok c1)
    (hstr : c1.cur.type = .str) (hvalid : c1.cur.value.valid = true)
    {c2 : PCore} (h2 : nextTok toks c1 = .ok c2) :
    collectKeys toks loc keys c = collectKeys toks loc (keys ++ [c1.cur.value]) c2 := by
  rw [collectKeys]
  rw [if_pos hcomma]
  split
  · next v heq => rw [h1] at heq; cases heq
  · next c1' heq =>
    rw [h1] at heq
    cases heq
    rw [if_neg (by simp [hstr]), if_neg (by simp [hvalid])]
    split
    · next v heq2 => rw [h2] at heq2; cases heq2
    · next c2' heq2 => rw [h2] at heq2; cases heq2; rfl

/-- Branch equation for `collectKeys`: the exit case (current token is not
a comma). -/
theorem collectKeys_done {toks : List Token} {loc : String} {keys : List TokenValue}
    {c : PCore} (hcomma : c.cur.type ≠ .comma) :
    collectKeys toks loc keys c = .ok (keys, c) := by
  rw [collectKeys, if_neg hcomma]

/-- Branch equation for `collectKeys`: the fatal `Expected string` case. -/
theorem collectKeys_expectedString {toks : List Token} {loc : String}
    {keys : List TokenValue} {c c1 : PCore} (hcomma : c.cur.type = .comma)
    (h1 : nextTok toks c = .ok c1) (hstr : c1.cur.type ≠ .str) :
    collectKeys toks loc keys c = .panic (unexpectedPanic "Expected string" c1.cur loc) := by
  rw [collectKeys, if_pos hcomma]
  split
  · next v heq => rw [h1] at heq; cases heq
  · next c1' heq =>
    rw [h1] at heq
    cases heq
    rw [if_pos hstr]

theorem collectKeys_bounds {toks : List Token} {loc : String} {keys : List TokenValue}
    {c : PCore} :
    ∀ {ks : List TokenValue} {c' : PCore}, collectKeys toks loc keys c = .ok (ks, c') →
      c.ptr ≤ c'.ptr ∧ c'.ptr ≤ max c.ptr toks.length := by
  induction keys, c using collectKeys.induct toks loc with
  | case1 keys c hcomma v h1 =>
    intro ks c' h
    rw [collectKeys, if_pos hcomma] at h
    split at h
    · cases h
    · next c1' heq => rw [h1] at heq; cases heq
  | case2 keys c hcomma c1 h1 hstr =>
    intro ks c' h
    rw [collectKeys, if_pos hcomma] at h
    split at h
    · next v heq => rw [h1] at heq; cases heq
    · next c1' heq =>
      rw [h1] at heq; cases heq
      rw [if_pos hstr] at h
      cases h
  | case3 keys c hcomma c1 h1 hstr hvalid =>
    intro ks c' h
    rw [collectKeys, if_pos hcomma] at h
    split at h
    · next v heq => rw [h1] at heq; cases heq
    · next c1' heq =>
      rw [h1] at heq; cases heq
      rw [if_neg hstr, if_pos hvalid] at h
      cases h
  | case4 keys c hcomma c1 h1 hstr hvalid v h2 =>
    intro ks c' h
    rw [collectKeys, if_pos hcomma] at h
    split at h
    · next v' heq => rw [h1] at heq; cases heq
    · next c1' heq =>
      rw [h1] at heq; cases heq
      rw [if_neg hstr, if_neg hvalid] at h
      split at h
      · cases h
      · next c2' heq2 => rw [h2] at heq2; cases heq2
  | case5 keys c hcomma c1 h1 hstr hvalid c2 h2 hb1 hb2 ih =>
    intro ks c' h
    rw [collectKeys_step hcomma h1 (by simpa using hstr) (by simpa using hvalid) h2] at h
    have := ih h
    omega
  | case6 keys c hcomma =>
    intro ks c' h
    rw [collectKeys_done hcomma] at h
    simp only [POut.ok.injEq, Prod.mk.injEq] at h
    obtain ⟨_, h2⟩ := h
    subst h2
    omega

/-- Model of `Parser.parse(indent)`, translated loop-to-recursion: `obj` is the
accumulated mapping, `c` the parser state at the top of the `for` loop.
Branches appear in source order: NewLine handling, direct Indent handling,
EOF, the property-key branch (key list via `collectKeys`, optional colon,
scalar value or recursive descent at `indent + 1`), and the fatal
`Unknown token` default.  The result carries the proof that the cursor
never moves backwards, which is what makes the Go loop terminate. -/
def parseLoop (toks : List Token) (loc : String) (indent : Nat)
    (obj : List (TokenValue × GVal)) (c : PCore) :
    {r : POut (List (TokenValue × GVal) × PCore) //
      ∀ m c', r = .ok (m, c') → c.ptr ≤ c'.ptr ∧ c'.ptr ≤ max c.ptr toks.length} :=
  if hNL : c.cur.type = .newLine then
    match h1 : nextTok toks c with
    | .panic v => ⟨.panic v, fun m c' h => nomatch h⟩
    | .ok c1 =>
      have hb1 := nextTok_bounds h1
      if hz : indent = 0 then
        -- if we have 0 indentation then the next token doesn't matter
        let r2 := parseLoop toks loc indent obj c1
        ⟨r2.1, fun m c' h => by have := r2.2 m c' h; omega⟩
      else if hInd : c1.cur.type ≠ .indent then
        -- no indentation after a newline: gone down a level
        ⟨.ok (obj, c1), fun m c' h => by cases h; omega⟩
      else if hEq : c1.cur.value.int = indent then
        -- the indent is on our level
        match h2 : nextTok toks c1 with
        | .panic v => ⟨.panic v, fun m c' h => nomatch h⟩
        | .ok c2 =>
          have hb2 := nextTok_bounds h2
          let r2 := parseLoop toks loc indent obj c2
          ⟨r2.1, fun m c' h => by have := r2.2 m c' h; omega⟩
      else
        -- the indentation is less than our level
        ⟨.ok (obj, c1), fun m c' h => by cases h; omega⟩
  else if hInd : c.cur.type = .indent then
    if hEq : c.cur.value.int = indent then
      match h1 : nextTok toks c with
      | .panic v => ⟨.panic v, fun m c' h => nomatch h⟩
      | .ok c1 =>
        have hb1 := nextTok_bounds h1
        let r2 := parseLoop toks loc indent obj c1
        ⟨r2.1, fun m c' h => by have := r2.2 m c' h; omega⟩
    else ⟨.ok (obj, c), fun m c' h => by cases h; omega⟩
  else if hEOF : c.cur.type = .eof then
    ⟨.ok (obj, c), fun m c' h => by cases h; omega⟩
  else if hStr : c.cur.type = .str then
    if hKey : c.cur.value.valid = false then
      ⟨.panic (.str "Expected a key"), fun m c' h => nomatch h⟩
    else
      match h1 : nextTok toks c with
      | .panic v => ⟨.panic v, fun m c' h => nomatch h⟩
      | .ok c1 =>
        have hb1 := nextTok_bounds h1
        match h2 : collectKeys toks loc [c.cur.value] c1 with
        | .panic v => ⟨.panic v, fun m c' h => nomatch h⟩
        | .ok (keys, c2) =>
          have hb2 := collectKeys_bounds h2
          match h3 : (if c2.cur.type = .colon then nextTok toks c2 else .ok c2) with
          | .panic v => ⟨.panic v, fun m c' h => nomatch h⟩
          | .ok c3 =>
            have hb3 : c2.ptr ≤ c3.ptr ∧ c3.ptr ≤ max c2.ptr toks.length := by
              by_cases hc : c2.cur.type = .colon
              · rw [if_pos hc] at h3
                have := nextTok_bounds h3
                omega
              · rw [if_neg hc] at h3
                cases h3
                omega
            if hVal : isValidPropValueToken c3.cur then
              let obj2 := keys.foldl (fun m k => mapInsert m k (.scalar c3.cur.value)) obj
              match h4 : nextTok toks c3 with
              | .panic v => ⟨.panic v, fun m c' h => nomatch h⟩
              | .ok c4 =>
                have hb4 := nextTok_bounds h4
                let r2 := parseLoop toks loc indent obj2 c4
                ⟨r2.1, fun m c' h => by have := r2.2 m c' h; omega⟩
            else if hColon : c2.cur.type = .colon then
              let r5 := parseLoop toks loc (indent + 1) [] c3
              match h5 : r5.1 with
              | .panic v => ⟨.panic v, fun m c' h => nomatch h⟩
              | .ok (val, c4) =>
                have hb5 := r5.2 val c4 h5
                let obj2 := keys.foldl (fun m k => mapInsert m k (.obj val)) obj
                if hBrk : indent ≠ 0 ∧ c4.cur.type ≠ .indent then
                  ⟨.ok (obj2, c4), fun m c' h => by cases h; omega⟩
                else
                  let r2 := parseLoop toks loc indent obj2 c4
                  ⟨r2.1, fun m c' h => by have := r2.2 m c' h; omega⟩
            else
              ⟨.panic (unexpectedPanic "Invalid value type" c3.cur loc),
               fun m c' h => nomatch h⟩
  else
    ⟨.panic (unexpectedPanic ("Unknown token: " ++ goFmtToken c.cur) c.cur loc),
     fun m c' h => nomatch h⟩
termination_by toks.length - c.ptr
decreasing_by all_goals omega

/-- The Go zero `Token{}` used as the parser's initial current token; it is
overwritten by the priming `next()` before anything inspects it (the model's
`.invalid` tag stands in for Go's out-of-range `TokenType(0)`). -/
def zeroToken : Token := {}

/-- Model of `parser := _Parser{tokens: …}; parser.next(); parser.parse(0)` — the
parsing part of `ParseLockFileData` (with its empty `fileLoc`). -/
def parseTop (toks : List Token) : POut (List (TokenValue × GVal) × PCore) :=
  match nextTok toks { cur := zeroToken, ptr := 0, cms := [] } with
  | .panic v => .panic v
  | .ok c0 => (parseLoop toks "" 0 [] c0).1

/-! ## The `LockFile` layer (`src/unnamed/part_002`) -/

/-- One entry of `LockFile` (the anonymous struct in `part_002`); maps are
kept as association lists in the (sorted) order `encoding/json` produces
when round-tripping through a Go map. -/
structure LockEntry where
  name : String := ""
  version : String := ""
  uid : String := ""
  resolved : String := ""
  integrity : String := ""
  registry : String := ""
  dependencies : List (String × String) := []
  optionalDependencies : List (String × String) := []
deriving DecidableEq, Repr

/-- Model of `LockFile` (`map[string]struct{…}`), as a key-sorted association list. -/
abbrev LockFile := List (String × LockEntry)

/-- Stable insertion into a key-sorted association list (equal keys keep
their relative order), modelling `encoding/json`'s sorted map-key output. -/
def insAssoc {α : Type} (p : String × α) : List (String × α) → List (String × α)
  | [] => [p]
  | q :: rest => if q.1 ≤ p.1 then q :: insAssoc p rest else p :: q :: rest

/-- Sort an association list by key (stable). -/
def sortAssoc {α : Type} (l : List (String × α)) : List (String × α) :=
  l.foldl (fun acc p => insAssoc p acc) []

/-- Association-list update used to model JSON-object key collapsing
(`json.Unmarshal` into a map: a later duplicate key overwrites). -/
def setAssoc {α : Type} (m : List (String × α)) (k : String) (v : α) : List (String × α) :=
  match m with
  | [] => [(k, v)]
  | (k', v') :: rest => if k' = k then (k, v) :: rest else (k', v') :: setAssoc rest k v

/-- Collapse duplicate keys, last occurrence winning. -/
def collapseAssoc {α : Type} (l : List (String × α)) : List (String × α) :=
  l.foldl (fun acc p => setAssoc acc p.1 p.2) []

/-- The object entries as `json.Marshal` emits them for a
`map[TokenValue]…`: keys rendered by `TokenValue.MarshalText`, sorted, and
(on the way back in) collapsed.  Among distinct `TokenValue` keys with the
same text Go's sort order is unspecified; the model keeps document order. -/
def jsonObjEntries (m : List (TokenValue × GVal)) : List (String × GVal) :=
  collapseAssoc (sortAssoc (m.map fun p => (marshalText p.1, p.2)))

/-- Model of `json.Unmarshal` of one value into a `string` field: every scalar was
marshalled by `TokenValue.MarshalText` into a JSON string, so it decodes to
that text; an object is a type error (message text abridged). -/
def gvalToStr (v : GVal) : Except GoErr String :=
  match v with
  | .scalar tv => .ok (marshalText tv)
  | .obj _ => .error (.new "json: cannot unmarshal object into Go value of type string")

/-- Model of `json.Unmarshal` of one value into a `map[string]string` field. -/
def gvalToStrMap (v : GVal) : Except GoErr (List (String × String)) :=
  match v with
  | .scalar _ =>
    .error (.new "json: cannot unmarshal string into Go value of type map[string]string")
  | .obj m =>
    (jsonObjEntries m).foldlM (fun acc p => do
      let s ← gvalToStr p.2
      pure (acc ++ [(p.1, s)])) []

/-- ASCII lowering, standing in for `encoding/json`'s case-insensitive
field-name match (all tags here are ASCII). -/
def asciiLower (s : String) : String :=
  String.mk (s.toList.map fun c => if 'A' ≤ c ∧ c ≤ 'Z' then Char.ofNat (c.toNat + 32) else c)

/-- Assign one JSON object member to the struct fields of a `LockEntry`,
per the `json:"…"` tags; unknown members are ignored. -/
def setEntryField (e : LockEntry) (k : String) (v : GVal) : Except GoErr LockEntry :=
  let kl := asciiLower k
  if kl = "name" then do pure { e with name := ← gvalToStr v }
  else if kl = "version" then do pure { e with version := ← gvalToStr v }
  else if kl = "uid" then do pure { e with uid := ← gvalToStr v }
  else if kl = "resolved" then do pure { e with resolved := ← gvalToStr v }
  else if kl = "integrity" then do pure { e with integrity := ← gvalToStr v }
  else if kl = "registry" then do pure { e with registry := ← gvalToStr v }
  else if kl = "dependencies" then do pure { e with dependencies := ← gvalToStrMap v }
  else if kl = "optionaldependencies" then do
    pure { e with optionalDependencies := ← gvalToStrMap v }
  else pure e

/-- Model of `json.Unmarshal` of one document value into a `LockFile` entry struct. -/
def toLockEntry (v : GVal) : Except GoErr LockEntry :=
  match v with
  | .scalar _ =>
    .error (.new "json: cannot unmarshal string into Go value of type struct")
  | .obj m => (jsonObjEntries m).foldlM (fun e p => setEntryField e p.1 p.2) {}

/-- Model of `json.Marshal(parser.parse(0))` followed by `json.Unmarshal(…, &lf)`:
the parsed generic mapping pushed through JSON into the typed `LockFile`. -/
def toLockFile (m : List (TokenValue × GVal)) : Except GoErr LockFile :=
  (jsonObjEntries m).foldlM (fun acc p => do
    let e ← toLockEntry p.2
    pure (acc ++ [(p.1, e)])) []

/-- The body of `ParseLockFileData` without the deferred `recover`:
tokenize (an `errors.New` return or a panic), parse (panics only), then the
JSON round-trip into `LockFile` (wrapped errors). -/
def rawPipeline (data : List Char) : Except GoErr LockFile ⊕ PanicVal :=
  match tokenizeData data with
  | .err e => .inl (.error e)
  | .panic v => .inr v
  | .ok toks =>
    match parseTop toks with
    | .panic v => .inr v
    | .ok (m, _) =>
      match toLockFile m with
      | .error e => .inl (.error (.wrap "parse failed" e))
      | .ok lf => .inl (.ok lf)

/-- The `recover` switch in `ParseLockFileData`: an `error` panic value is
returned as-is, a `string` becomes `_ParseErr`, and anything else (such as
the tokenizer's `panic(1)`) becomes `_ParseErr("Unknown err")`; no panic
value is a `fmt.Stringer` here. -/
def recoverConv (v : PanicVal) : GoErr :=
  match v with
  | .goerr e => e
  | .str s => .parseErr s
  | .int _ => .parseErr "Unknown err"

/-- Model of `ParseLockFileData`: the pipeline with every panic caught by the
deferred `recover` and converted into the returned error. -/
def ParseLockFileData (data : List Char) : Except GoErr LockFile :=
  match rawPipeline data with
  | .inl r => r
  | .inr v => .error (recoverConv v)

/-- Model of `LockFile.RootElement`: Go builds the set of keys, deletes every
`name+"@"+range` referenced from any entry's `Dependencies`, and returns
the rest sorted ascending; the set is modelled by deduplicating the key
list (a Go map cannot hold duplicate keys), and the sort by insertion
sort. -/
def RootElement (f : LockFile) : List String :=
  let refs := f.flatMap fun p => p.2.dependencies.map fun kv => kv.1 ++ "@" ++ kv.2
  List.insertionSort (· ≤ ·) (((f.map Prod.fst).dedup).filter fun s => ¬ s ∈ refs)

/-! ## The Encoder (not present under `src/`; modelled from the spec) -/

/-- Modelled from the spec: the Scalar Formatter's bare-token test (§4.3) —
first character a letter, `/`, `.` or `-`; no delimiter characters; not the
literal `true`/`false`; not all digits.  The implementation of `maybeWrap`
is missing from `src/`; this follows §4.3 and the `TestWrapping` cases in
`src/unnamed/part_001`. -/
def bareOk (s : String) : Bool :=
  match s.toList with
  | [] => false
  | c :: cs =>
    isStrStartCh c && (c :: cs).all (fun ch => !isDelimCh ch) &&
    !(s == "true") && !(s == "false") && !((c :: cs).all isDigitCh)

/-- Modelled from the spec: double-quoted string form with standard JSON
escaping (§4.3; `encoding/json`'s optional HTML escaping is not modelled —
no test pins it down). -/
def jsonQuote (s : String) : String :=
  "\"" ++
  (s.toList.foldl (fun acc c =>
    acc ++
    (if c = '"' then "\\\""
     else if c = '\\' then "\\\\"
     else if c = '\n' then "\\n"
     else if c = '\r' then "\\r"
     else if c = '\t' then "\\t"
     else if c.toNat < 0x20 then
       "\\u00" ++ String.mk [hexDigitChar (c.toNat / 16), hexDigitChar (c.toNat % 16)]
     else String.mk [c])) "") ++
  "\""
where
  hexDigitChar (n : Nat) : Char := if n < 10 then Char.ofNat ('0'.toNat + n)
                                   else Char.ofNat ('a'.toNat + n - 10)

/-- Modelled from the spec: the Scalar Formatter `maybeWrap` (§4.3). -/
def maybeWrap (s : String) : String := if bareOk s then s else jsonQuote s

/-- Sort strings ascending (used by the Encoder for keys/lines/groups). -/
def sortStrings (l : List String) : List String := List.insertionSort (· ≤ ·) l

/-- Modelled from the spec: `encodeMap` (§4.4) — a nested mapping block:
the (wrapped) block key with a colon, then one indented line per entry,
sorted; matches `TestEncodeMap` in `src/unnamed/part_001`. -/
def encodeMap (m : List (String × String)) (key : String) (indent : String) : List String :=
  (indent ++ maybeWrap key ++ ":") ::
  sortStrings (m.map fun kv => indent ++ "  " ++ maybeWrap kv.1 ++ " " ++ maybeWrap kv.2)

/-- Modelled from the spec: the body lines of one entry (§4.4), fields in
struct order, empty fields omitted, scalar fields via the Scalar Formatter,
map fields as nested sorted blocks; the exact field order is the spec's §9
open question. -/
def entryLines (e : LockEntry) : List String :=
  (if e.name = "" then [] else ["  name " ++ maybeWrap e.name]) ++
  (if e.version = "" then [] else ["  version " ++ maybeWrap e.version]) ++
  (if e.uid = "" then [] else ["  uid " ++ maybeWrap e.uid]) ++
  (if e.resolved = "" then [] else ["  resolved " ++ maybeWrap e.resolved]) ++
  (if e.integrity = "" then [] else ["  integrity " ++ maybeWrap e.integrity]) ++
  (if e.registry = "" then [] else ["  registry " ++ maybeWrap e.registry]) ++
  (if e.dependencies = [] then [] else encodeMap e.dependencies "dependencies" "  ") ++
  (if e.optionalDependencies = [] then []
   else encodeMap e.optionalDependencies "optionalDependencies" "  ")

/-- Group the keys of entries with structurally equal content (§4.4). -/
def groupByContent (lf : LockFile) : List (List String × LockEntry) :=
  lf.foldl (fun gs p =>
    if gs.any (fun g => g.2 = p.2) then
      gs.map fun g => if g.2 = p.2 then (g.1 ++ [p.1], g.2) else g
    else gs ++ [([p.1], p.2)]) []

/-- Modelled from the spec: `TypedDocument.encode` / `LockFile.Encode`
(§4.4) — entries grouped by content, each group's keys wrapped, sorted and
comma-joined into one header line followed by the entry body, groups sorted
by their joined key line and separated by blank lines.  On the empty
document it produces the empty text. -/
def Encode (lf : LockFile) : String :=
  let blocks := (groupByContent lf).map fun g =>
    String.intercalate ", " (sortStrings (g.1.map maybeWrap)) ++ ":\n" ++
    String.intercalate "\n" (entryLines g.2) ++ "\n"
  String.intercalate "\n" (sortStrings blocks)

/-! ## Theorems -/

/-- The dependency references deleted from the key set by `RootElement`. -/
def depRefs (f : LockFile) : List String :=
  f.flatMap fun p => p.2.dependencies.map fun kv => kv.1 ++ "@" ++ kv.2

theorem rootElement_def (f : LockFile) :
    RootElement f =
      List.insertionSort (· ≤ ·)
        (((f.map Prod.fst).dedup).filter fun s => ¬ s ∈ depRefs f) := rfl

theorem mem_rootElement {f : LockFile} {s : String} :
    s ∈ RootElement f ↔ s ∈ f.map Prod.fst ∧ s ∉ depRefs f := by
  rw [rootElement_def, (List.perm_insertionSort _ _).mem_iff]
  simp [List.mem_filter, List.mem_dedup]

theorem rootElement_sorted (f : LockFile) : (RootElement f).Sorted (· < ·) := by
  rw [rootElement_def]
  have hs : (List.insertionSort (· ≤ ·)
      (((f.map Prod.fst).dedup).filter fun s => ¬ s ∈ depRefs f)).Sorted (· ≤ ·) :=
    List.sorted_insertionSort _ _
  have hn : (List.insertionSort (· ≤ ·)
      (((f.map Prod.fst).dedup).filter fun s => ¬ s ∈ depRefs f)).Nodup :=
    (List.perm_insertionSort _ _).nodup_iff.mpr ((List.nodup_dedup _).filter _)
  exact hs.lt_of_le hn

theorem mem_depRefs {f : LockFile} {s : String} :
    s ∈ depRefs f ↔ ∃ p ∈ f, ∃ kv ∈ p.2.dependencies, s = kv.1 ++ "@" ++ kv.2 := by
  simp only [depRefs, List.mem_flatMap, List.mem_map]
  constructor
  · rintro ⟨p, hp, kv, hkv, rfl⟩
    exact ⟨p, hp, kv, hkv, rfl⟩
  · rintro ⟨p, hp, kv, hkv, rfl⟩
    exact ⟨p, hp, kv, hkv, rfl⟩

/-- C9: `RootElement` returns exactly the keys of the typed document that
are not referenced as `name + "@" + version-range` by any entry's
dependency map, sorted in ascending lexicographic order; on the document
`{"a@^1.0.0": {dependencies: {"b": "1.0.0"}}, "b@1.0.0": {}}` it returns
`["a@^1.0.0"]`. -/
theorem c9_rootElement_unreferenced_sorted :
    (∀ (f : LockFile) (s : String),
        s ∈ RootElement f ↔
          (s ∈ f.map Prod.fst ∧
            ¬ ∃ p ∈ f, ∃ kv ∈ p.2.dependencies, s = kv.1 ++ "@" ++ kv.2)) ∧
    (∀ f : LockFile, (RootElement f).Sorted (· < ·)) ∧
    RootElement [("a@^1.0.0", { dependencies := [("b", "1.0.0")] }), ("b@1.0.0", {})] =
      ["a@^1.0.0"] := by
  refine ⟨fun f s => ?_, rootElement_sorted, by decide⟩
  rw [mem_rootElement, mem_depRefs]

/-- C10: `RootElement` never consults `OptionalDependencies`: any key of
the document that is not referenced through some entry's `Dependencies`
map is in the result, no matter what any `optionalDependencies` map
contains. -/
theorem c10_rootElement_ignores_optionalDependencies (f : LockFile) (s : String)
    (h1 : s ∈ f.map Prod.fst)
    (h2 : ¬ ∃ p ∈ f, ∃ kv ∈ p.2.dependencies, s = kv.1 ++ "@" ++ kv.2) :
    s ∈ RootElement f := by
  rw [mem_rootElement, mem_depRefs]
  exact ⟨h1, h2⟩

/-- Witness for C10: `"b@1.0.0"` is referenced only through an
`optionalDependencies` map and is still a root entry. -/
theorem c10_rootElement_ignores_optionalDependencies_witness :
    "b@1.0.0" ∈ RootElement
      [("a@^1", { optionalDependencies := [("b", "1.0.0")] }), ("b@1.0.0", {})] :=
  c10_rootElement_ignores_optionalDependencies _ _ (by decide) (by decide)

/-! ### Tokenizer step lemmas -/

/-- Tokenizer state after a line-terminator step that consumed `chop`
characters: one NewLine token at the incremented line, column reset then
advanced by `chop`, indentation armed. -/
def afterNewLine (st : TokState) (chop : Nat) : TokState :=
  { lastNewLine := true, line := st.line + 1, col := chop,
    tokens := st.tokens ++
      [{ line := st.line + 1, col := 0, type := .newLine, value := tvVoid }] }

/-- Tokenizer state after an ordinary (non-line-terminator) step emitting
one token and consuming `chop` characters. -/
def afterTok (st : TokState) (tt : TokenType) (tv : TokenValue) (chop : Nat) : TokState :=
  { lastNewLine := false, line := st.line, col := st.col + chop,
    tokens := st.tokens ++
      [{ line := st.line, col := st.col, type := tt, value := tv }] }

theorem tokLoop_newline2 (st : TokState) (rest : List Char) :
    tokLoop st ('\n' :: '\n' :: rest) = tokLoop (afterNewLine st 2) rest := by
  rw [tokLoop]
  simp [tokStep, buildTok, afterNewLine]

theorem tokLoop_newline1 (st : TokState) (rest : List Char)
    (h : rest.head? ≠ some '\n') :
    tokLoop st ('\n' :: rest) = tokLoop (afterNewLine st 1) rest := by
  rw [tokLoop]
  simp [tokStep, buildTok, afterNewLine, h]

theorem tokLoop_crlf (st : TokState) (rest : List Char) :
    tokLoop st ('\r' :: '\n' :: rest) = tokLoop (afterNewLine st 2) rest := by
  rw [tokLoop]
  simp [tokStep, buildTok, afterNewLine]

theorem countSpacesFrom_run (m : Nat) (d : Char) (rest : List Char) (hd : d ≠ ' ') :
    countSpacesFrom (List.replicate m ' ' ++ d :: rest) = some m := by
  induction m with
  | zero => simp [countSpacesFrom, hd]
  | succ k ih => simpa [countSpacesFrom] using ih

theorem countSpacesFrom_all (m : Nat) :
    countSpacesFrom (List.replicate m ' ') = none := by
  induction m with
  | zero => simp [countSpacesFrom]
  | succ k ih => simp [countSpacesFrom, ih]

/-- C2 (supporting theorem, see also the failing input below): with
indentation armed, a run of `n ≥ 1` spaces that is followed by a non-space
character is rejected with the fatal `Invalid number of spaces` error
exactly when `n` is odd, and for even `n` emits a single Indent token of
value `n / 2` consuming exactly the `n` spaces; but a run that extends to
the end of the input makes the space-counting loop read out of bounds
(a Go runtime panic) for every `n ≥ 1`, even or odd — the divergence from
the claim. -/
theorem c2_indent_parity :
    (∀ (st : TokState) (n : Nat) (d : Char) (rest : List Char),
        st.lastNewLine = true → d ≠ ' ' → 1 ≤ n → n % 2 = 1 →
        tokLoop st (List.replicate n ' ' ++ d :: rest) =
          .err (.new "Invalid number of spaces")) ∧
    (∀ (st : TokState) (n : Nat) (d : Char) (rest : List Char),
        st.lastNewLine = true → d ≠ ' ' → 1 ≤ n → n % 2 = 0 →
        tokLoop st (List.replicate n ' ' ++ d :: rest) =
          tokLoop (afterTok st .indent (tvInt (n / 2)) n) (d :: rest)) ∧
    (∀ (st : TokState) (n : Nat),
        st.lastNewLine = true → 1 ≤ n →
        tokLoop st (List.replicate n ' ') =
          .panic (.goerr (.runtime "index out of range"))) := by
  refine ⟨?_, ?_, ?_⟩
  · intro st n d rest hln hd hn hodd
    obtain ⟨m, rfl⟩ : ∃ m, n = m + 1 := ⟨n - 1, by omega⟩
    rw [show List.replicate (m + 1) ' ' ++ d :: rest =
          ' ' :: (List.replicate m ' ' ++ d :: rest) by simp [List.replicate_succ]]
    rw [tokLoop]
    simp [tokStep, hln, countSpacesFrom_run m d rest hd, hodd]
  · intro st n d rest hln hd hn heven
    obtain ⟨m, rfl⟩ : ∃ m, n = m + 1 := ⟨n - 1, by omega⟩
    rw [show List.replicate (m + 1) ' ' ++ d :: rest =
          ' ' :: (List.replicate m ' ' ++ d :: rest) by simp [List.replicate_succ]]
    rw [tokLoop]
    have hdrop : (' ' :: (List.replicate m ' ' ++ d :: rest)).drop (m + 1) = d :: rest := by
      rw [List.drop_succ_cons]
      simpa using List.drop_left (List.replicate m ' ') (d :: rest)
    simp [tokStep, hln, countSpacesFrom_run m d rest hd, heven, buildTok, afterTok, hdrop]
  · intro st n hln hn
    obtain ⟨m, rfl⟩ : ∃ m, n = m + 1 := ⟨n - 1, by omega⟩
    rw [show List.replicate (m + 1) ' ' = ' ' :: List.replicate m ' ' by simp [List.replicate_succ]]
    rw [tokLoop]
    simp [tokStep, hln, countSpacesFrom_all m]

/-- Witness for C2's supporting theorem: a lone space before `x` is the
parity error, and two spaces ending the input hit the out-of-bounds read. -/
theorem c2_indent_parity_witness :
    tokLoop { lastNewLine := true } (List.replicate 1 ' ' ++ 'x' :: []) =
      .err (.new "Invalid number of spaces") ∧
    tokLoop { lastNewLine := true } (List.replicate 2 ' ') =
      .panic (.goerr (.runtime "index out of range")) :=
  ⟨c2_indent_parity.1 _ 1 'x' [] rfl (by decide) (by decide) (by decide),
   c2_indent_parity.2.2 _ 2 rfl (by decide)⟩

/-- C6: in the tokenizer's rule order, `true` is matched as a prefix of
the remaining input — whatever follows — emitting `Boolean(true)` and
consuming 4 characters, while `false` is matched as a suffix of the entire
remaining input, emitting `Boolean(false)` and consuming 5 characters from
the front; neither match is delimiter-bounded. -/
theorem c6_true_prefix_false_suffix :
    (∀ (st : TokState) (rest : List Char),
        tokLoop st ('t' :: 'r' :: 'u' :: 'e' :: rest) =
          tokLoop (afterTok st .boolean (tvBool true) 4) rest) ∧
    (∀ (st : TokState) (c : Char) (mid : List Char),
        c ≠ '\n' → c ≠ '\r' → c ≠ '#' → c ≠ ' ' → c ≠ '"' → isDigitCh c = false →
        ['t', 'r', 'u', 'e'].isPrefixOf (c :: (mid ++ ['f', 'a', 'l', 's', 'e'])) = false →
        tokLoop st (c :: (mid ++ ['f', 'a', 'l', 's', 'e'])) =
          tokLoop (afterTok st .boolean (tvBool false) 5)
            ((c :: (mid ++ ['f', 'a', 'l', 's', 'e'])).drop 5)) := by
  constructor
  · intro st rest
    rw [tokLoop]
    simp +decide [tokStep, buildTok, afterTok, List.isPrefixOf]
  · intro st c mid h1 h2 h3 h4 h5 h6 h7
    rw [tokLoop]
    have hsuf : List.isSuffixOf ['f', 'a', 'l', 's', 'e'] (c :: (mid ++ ['f', 'a', 'l', 's', 'e'])) = true := by
      rw [List.isSuffixOf_iff_suffix, ← List.cons_append]
      exact List.suffix_append _ _
    simp [tokStep, buildTok, afterTok, h1, h2, h3, h4, h5, h6, h7, hsuf]

/-- Witness for C6: `xfalse` is tokenized by the suffix rule into
`Boolean(false)` with the 5 front characters dropped, leaving `e`. -/
theorem c6_true_prefix_false_suffix_witness :
    tokLoop {} ('x' :: (([] : List Char) ++ ['f', 'a', 'l', 's', 'e'])) =
      tokLoop (afterTok {} .boolean (tvBool false) 5)
        (('x' :: (([] : List Char) ++ ['f', 'a', 'l', 's', 'e'])).drop 5) :=
  c6_true_prefix_false_suffix.2 {} 'x' [] (by decide) (by decide) (by decide)
    (by decide) (by decide) (by decide) (by decide)

/-- C7 (counterexample): two consecutive `\n` characters are consumed as a
single unit — the `input[1] == '\n'` check is not guarded by
`input[0] == '\r'` — so `"\n\n"` tokenizes to one NewLine token (plus EOF),
not the two NewLine tokens the claim requires for `k = 2`. -/
theorem c7_counterexample :
    tokenizeData ['\n', '\n'] =
      .ok [{ line := 1, col := 0, type := .newLine, value := tvVoid },
           { line := 1, col := 2, type := .eof, value := tvVoid }] ∧
    (List.filter (fun t => t.type == TokenType.newLine)
      [({ line := 1, col := 0, type := .newLine, value := tvVoid } : Token),
       { line := 1, col := 2, type := .eof, value := tvVoid }]).length = 1 := by
  constructor
  · show tokLoop {} ('\n' :: '\n' :: []) = _
    rw [tokLoop_newline2, tokLoop]
    simp [afterNewLine, buildTok]
  · decide

theorem tokLoop_replicate_newlines :
    ∀ (k : Nat) (st : TokState),
      ∃ ts, tokLoop st (List.replicate k '\n') = .ok (st.tokens ++ ts) ∧
        (ts.filter fun t => t.type == TokenType.newLine).length = (k + 1) / 2 ∧
        ts.length = (k + 1) / 2 + 1 := by
  intro k
  induction k using Nat.strong_induction_on with
  | _ k ih =>
    intro st
    match k with
    | 0 =>
      refine ⟨[{ line := st.line, col := st.col, type := .eof, value := tvVoid }], ?_, by simp, by simp⟩
      rw [show List.replicate 0 '\n' = [] from rfl, tokLoop]
      simp [buildTok]
    | 1 =>
      refine ⟨[{ line := st.line + 1, col := 0, type := .newLine, value := tvVoid },
               { line := st.line + 1, col := 1, type := .eof, value := tvVoid }],
              ?_, by simp, by simp⟩
      rw [show List.replicate 1 '\n' = '\n' :: [] from rfl,
          tokLoop_newline1 st [] (by simp), tokLoop]
      simp [afterNewLine, buildTok]
    | k + 2 =>
      rw [show List.replicate (k + 2) '\n' = '\n' :: '\n' :: List.replicate k '\n' by
            simp [List.replicate_succ],
          tokLoop_newline2]
      obtain ⟨ts, hts, hc, hl⟩ := ih k (by omega) (afterNewLine st 2)
      refine ⟨{ line := st.line + 1, col := 0, type := .newLine, value := tvVoid } :: ts,
              ?_, ?_, ?_⟩
      · rw [hts]; simp [afterNewLine]
      · simp only [List.filter_cons, List.length_cons]
        simp [hc]
        omega
      · simp [hl]; omega

/-- C7 (amended): a line-terminator step consumes one character, or two
whenever the immediately following character is `\n` (so `\r\n` *and*
`\n\n` are each consumed as one unit), and produces exactly one NewLine
token, resetting the column, incrementing the line once and arming
indentation; consequently `k` consecutive `\n` characters yield
`⌈k/2⌉ = (k+1)/2` NewLine tokens, not `k`. -/
theorem c7_line_terminators :
    (∀ (st : TokState) (rest : List Char),
        tokLoop st ('\n' :: '\n' :: rest) = tokLoop (afterNewLine st 2) rest) ∧
    (∀ (st : TokState) (rest : List Char), rest.head? ≠ some '\n' →
        tokLoop st ('\n' :: rest) = tokLoop (afterNewLine st 1) rest) ∧
    (∀ (st : TokState) (rest : List Char),
        tokLoop st ('\r' :: '\n' :: rest) = tokLoop (afterNewLine st 2) rest) ∧
    (∀ k : Nat, ∃ ts, tokenizeData (List.replicate k '\n') = .ok ts ∧
        (ts.filter fun t => t.type == TokenType.newLine).length = (k + 1) / 2) := by
  refine ⟨tokLoop_newline2, tokLoop_newline1, tokLoop_crlf, fun k => ?_⟩
  obtain ⟨ts, h1, h2, _⟩ := tokLoop_replicate_newlines k {}
  exact ⟨ts, by simpa [tokenizeData] using h1, h2⟩

/-- Witness for C7's amended theorem: a lone `\n` before `a`. -/
theorem c7_line_terminators_witness :
    tokLoop {} ('\n' :: ['a']) = tokLoop (afterNewLine {} 1) ['a'] :=
  c7_line_terminators.2.1 {} ['a'] (by decide)

/-! ### The version gate (C4) -/

theorem char_le_iff {a b : Char} : a ≤ b ↔ a.toNat ≤ b.toNat := by
  rw [Char.le_def, UInt32.le_def, BitVec.le_def]
  exact Iff.rfl

theorem isGoSpace_digit {c : Char} (h : isDigitCh c = true) : isGoSpace c = false := by
  have h1 : 48 ≤ c.toNat ∧ c.toNat ≤ 57 := by
    simpa [isDigitCh, char_le_iff, show '0'.toNat = 48 from rfl,
           show '9'.toNat = 57 from rfl] using h
  rw [isGoSpace]
  have e1 : (c == ' ') = false := by
    rw [beq_eq_false_iff_ne]
    intro hc; subst hc; exact absurd h (by decide)
  have e2 : (decide ('\t' ≤ c) && decide (c ≤ '\x0d')) = false := by
    rw [Bool.and_eq_false_iff]
    right
    rw [decide_eq_false_iff_not, char_le_iff, show '\x0d'.toNat = 13 from rfl]
    omega
  have e3 : (c.toNat == 0x85) = false := by simp; omega
  have e4 : (c.toNat == 0xA0) = false := by simp; omega
  rw [e1, e2, e3, e4]
  rfl

theorem goTrimSpace_version (ds : List Char) (hne : ds ≠ []) (hds : ds.all isDigitCh = true) :
    goTrimSpace ("yarn lockfile v" ++ String.mk ds) = "yarn lockfile v" ++ String.mk ds := by
  have hlist : ("yarn lockfile v" ++ String.mk ds).toList = "yarn lockfile v".toList ++ ds := rfl
  rw [goTrimSpace, hlist]
  obtain ⟨d, ds', rfl⟩ : ∃ d ds', ds = ds' ++ [d] := by
    rcases List.eq_nil_or_concat ds with h | ⟨ds', d, hc⟩
    · exact absurd h hne
    · exact ⟨d, ds', by rw [hc, List.concat_eq_append]⟩
  have hd : isDigitCh d = true := by
    have := List.all_eq_true.mp hds d (by simp)
    simpa using this
  rw [show "yarn lockfile v".toList ++ (ds' ++ [d]) =
        'y' :: ("arn lockfile v".toList ++ (ds' ++ [d])) from rfl]
  rw [List.dropWhile_cons_of_neg (by simp [isGoSpace])]
  rw [show ('y' :: ("arn lockfile v".toList ++ (ds' ++ [d]))).reverse =
        d :: (ds'.reverse ++ "yarn lockfile v".toList.reverse) by simp]
  rw [List.dropWhile_cons_of_neg (by simp [isGoSpace_digit hd])]
  apply congrArg
  simp

theorem versionRegexMatch_version (ds : List Char) (hne : ds ≠ [])
    (hds : ds.all isDigitCh = true) :
    versionRegexMatch ("yarn lockfile v" ++ String.mk ds) = some ds := by
  have hlist : ("yarn lockfile v" ++ String.mk ds).toList = "yarn lockfile v".toList ++ ds := rfl
  rw [versionRegexMatch]
  simp only [hlist]
  rw [if_pos (by rw [List.isPrefixOf_iff_prefix]; exact List.prefix_append _ _)]
  rw [List.drop_left]
  rw [if_pos ⟨hne, hds⟩]

/-- C4: a comment whose (trimmed) text declares lockfile version `N` is
fatal if and only if `N` exceeds the supported version 1: `onComment`
panics with the version-exceeded message exactly when the declared number
is greater than 1, a `# yarn lockfile v99` header makes the whole parse
fail with that error, and a `# yarn lockfile v1` header parses without any
version error. -/
theorem c4_version_gate :
    (∀ (t : Token) (cms : List String) (ds : List Char),
        t.value = tvStr ("yarn lockfile v" ++ String.mk ds) →
        ds ≠ [] → ds.all isDigitCh = true →
        onComment t cms =
          if atoiClamp ds > 1 then .panic (.str (versionMsg (atoiClamp ds)))
          else .ok (cms ++ ["yarn lockfile v" ++ String.mk ds])) ∧
    ParseLockFileData "# yarn lockfile v99\n".toList = .error (.parseErr (versionMsg 99)) ∧
    ParseLockFileData "# yarn lockfile v1\n".toList = .ok [] := by
  refine ⟨?_, ?_, ?_⟩
  · intro t cms ds hv hne hds
    rw [onComment, if_neg (by simp [hv, tvStr, TokenValue.isStringVal])]
    simp only [hv]
    dsimp only [tvStr]
    rw [goTrimSpace_version ds hne hds, versionRegexMatch_version ds hne hds]
    rw [show LockfileVersion = 1 from rfl]
  · simp [ParseLockFileData, rawPipeline, tokenizeData, tokLoop, tokStep, buildTok,
          parseTop, nextTok, nextAux, onComment, goTrimSpace, isGoSpace,
          versionRegexMatch, isDigitCh, atoiClamp, versionMsg, LockfileVersion,
          TokenValue.isStringVal, tvStr, tvVoid, zeroToken, parseLoop, collectKeys,
          recoverConv, List.isPrefixOf, countSpacesFrom]
  · simp [ParseLockFileData, rawPipeline, tokenizeData, tokLoop, tokStep, buildTok,
          parseTop, nextTok, nextAux, onComment, goTrimSpace, isGoSpace,
          versionRegexMatch, isDigitCh, atoiClamp, versionMsg, LockfileVersion,
          TokenValue.isStringVal, tvStr, tvVoid, zeroToken, parseLoop, collectKeys,
          toLockFile, jsonObjEntries, collapseAssoc, sortAssoc, recoverConv,
          List.isPrefixOf, countSpacesFrom, pure, Except.pure]

/-- Witness for C4: a comment token `yarn lockfile v99` panics with the
version-exceeded message. -/
theorem c4_version_gate_witness :
    onComment { type := .comment, value := tvStr ("yarn lockfile v" ++ String.mk ['9', '9']) } [] =
      .panic (.str (versionMsg 99)) := by
  have h := c4_version_gate.1
    { type := .comment, value := tvStr ("yarn lockfile v" ++ String.mk ['9', '9']) }
    [] ['9', '9'] rfl (by decide) (by decide)
  rw [h, if_pos (by decide), show atoiClamp ['9', '9'] = 99 by decide]

/-! ### All-or-nothing error handling (C3) -/

/-- C3: `ParseLockFileData` is exactly the raw pipeline with the deferred
`recover` applied once at the top: a successful pipeline returns the
document with no error, a tokenizer error return is passed through as the
single returned error, and every panic raised anywhere during tokenizing or
parsing is converted by the `recover` switch into a single returned error —
never a document-plus-error, and never an escaping panic (the result type
`Except` has no panic alternative). -/
theorem c3_all_or_nothing (data : List Char) :
    (match rawPipeline data with
     | .inl (Except.ok lf) => ParseLockFileData data = .ok lf
     | .inl (Except.error e) => ParseLockFileData data = .error e
     | .inr v => ParseLockFileData data = .error (recoverConv v)) := by
  rw [ParseLockFileData]
  match rawPipeline data with
  | .inl (Except.ok lf) => rfl
  | .inl (Except.error e) => rfl
  | .inr v => rfl

/-! ### Parser branch lemmas (for C5 and C8) -/

theorem nextTok_simple {toks : List Token} {c : PCore} {tk : Token}
    (h : toks.drop c.ptr = tk :: (toks.drop (c.ptr + 1))) (hc : tk.type ≠ .comment) :
    nextTok toks c = .ok { cur := tk, ptr := c.ptr + 1, cms := c.cms } := by
  rw [nextTok, h, nextAux, if_neg hc]

theorem parseLoop_eof (toks : List Token) (loc : String) (indent : Nat)
    (obj : List (TokenValue × GVal)) (c : PCore) (h : c.cur.type = .eof) :
    (parseLoop toks loc indent obj c).1 = .ok (obj, c) := by
  rw [parseLoop]
  rw [dif_neg (by simp [h]), dif_neg (by simp [h]), dif_pos h]

theorem parseLoop_newline0 (toks : List Token) (loc : String)
    (obj : List (TokenValue × GVal)) {c c1 : PCore} (h : c.cur.type = .newLine)
    (h1 : nextTok toks c = .ok c1) :
    (parseLoop toks loc 0 obj c).1 = (parseLoop toks loc 0 obj c1).1 := by
  conv_lhs => rw [parseLoop]
  rw [dif_pos h]
  split
  · next v heq => rw [h1] at heq; cases heq
  · next c1' heq =>
    rw [h1] at heq; cases heq
    dsimp only
    rw [dif_pos rfl]

theorem parseLoop_scalar (toks : List Token) (loc : String) (indent : Nat)
    (obj : List (TokenValue × GVal)) {c c1 c2 c4 : PCore} {keys : List TokenValue}
    (hstr : c.cur.type = .str) (hvalid : c.cur.value.valid = true)
    (h1 : nextTok toks c = .ok c1)
    (h2 : collectKeys toks loc [c.cur.value] c1 = .ok (keys, c2))
    (hnc : c2.cur.type ≠ .colon)
    (hval : isValidPropValueToken c2.cur = true)
    (h4 : nextTok toks c2 = .ok c4) :
    (parseLoop toks loc indent obj c).1 =
      (parseLoop toks loc indent
        (keys.foldl (fun m k => mapInsert m k (GVal.scalar c2.cur.value)) obj) c4).1 := by
  conv_lhs => rw [parseLoop]
  rw [dif_neg (by simp [hstr]), dif_neg (by simp [hstr]), dif_neg (by simp [hstr]),
      dif_pos hstr, dif_neg (by simp [hvalid])]
  split
  · next v heq => rw [h1] at heq; cases heq
  · next c1' heq =>
    rw [h1] at heq; cases heq
    split
    · next v heq2 => rw [h2] at heq2; cases heq2
    · next ks' c2' heq2 =>
      rw [h2] at heq2; cases heq2
      split
      · next v heq3 => rw [if_neg hnc] at heq3; cases heq3
      · next c3' heq3 =>
        rw [if_neg hnc] at heq3; cases heq3
        dsimp only
        rw [dif_pos hval]
        split
        · next v heq4 => rw [h4] at heq4; cases heq4
        · next c4' heq4 => rw [h4] at heq4; cases heq4; rfl

theorem parseLoop_keysPanic (toks : List Token) (loc : String) (indent : Nat)
    (obj : List (TokenValue × GVal)) {c c1 : PCore} {v : PanicVal}
    (hstr : c.cur.type = .str) (hvalid : c.cur.value.valid = true)
    (h1 : nextTok toks c = .ok c1)
    (h2 : collectKeys toks loc [c.cur.value] c1 = .panic v) :
    (parseLoop toks loc indent obj c).1 = .panic v := by
  rw [parseLoop]
  rw [dif_neg (by simp [hstr]), dif_neg (by simp [hstr]), dif_neg (by simp [hstr]),
      dif_pos hstr, dif_neg (by simp [hvalid])]
  split
  · next v' heq => rw [h1] at heq; cases heq
  · next c1' heq =>
    rw [h1] at heq; cases heq
    split
    · next v' heq2 => rw [h2] at heq2; cases heq2; rfl
    · next ks' c2' heq2 => rw [h2] at heq2; cases heq2

/-- A bare comma token as the tokenizer would emit it (the parser only ever
inspects its `type`). -/
def mkComma : Token := { type := .comma, value := tvVoid }

/-- A bare newline token (the parser only ever inspects its `type`). -/
def mkNL : Token := { type := .newLine, value := tvVoid }

/-- A bare EOF token (the parser only ever inspects its `type`). -/
def mkEOF : Token := { type := .eof, value := tvVoid }

theorem mapLookup_insert (m : List (TokenValue × GVal)) (k key : TokenValue) (v : GVal) :
    mapLookup (mapInsert m k v) key = if k = key then some v else mapLookup m key := by
  induction m with
  | nil => rfl
  | cons p rest ih =>
    obtain ⟨k', v'⟩ := p
    by_cases hk : k' = k
    · subst hk
      rw [mapInsert, if_pos rfl]
      by_cases hkey : k' = key
      · subst hkey; rw [mapLookup, if_pos rfl, if_pos rfl]
      · rw [mapLookup, if_neg hkey, if_neg hkey, mapLookup, if_neg hkey]
    · rw [mapInsert, if_neg hk, mapLookup]
      by_cases hkey : k' = key
      · subst hkey
        have : ¬ k = k' := fun h => hk h.symm
        rw [if_pos rfl, if_neg this, mapLookup, if_pos rfl]
      · rw [if_neg hkey, ih, mapLookup, if_neg hkey]

theorem mapLookup_foldl (ks : List TokenValue) (v : GVal) (key : TokenValue) :
    ∀ obj, mapLookup (ks.foldl (fun m k => mapInsert m k v) obj) key =
      if key ∈ ks then some v else mapLookup obj key := by
  induction ks with
  | nil => intro obj; simp
  | cons k t ih =>
    intro obj
    rw [List.foldl_cons, ih]
    by_cases hm : key ∈ t
    · simp [hm]
    · by_cases hk : k = key
      · subst hk; simp [hm, mapLookup_insert]
      · have hnotin : ¬ key ∈ k :: t := by
          intro hmem
          rcases List.mem_cons.mp hmem with h | h
          · exact hk h.symm
          · exact hm h
        simp only [if_neg hm, if_neg hnotin, mapLookup_insert, if_neg hk]

theorem drop_succ_of_drop_cons {toks : List Token} {p : Nat} {tk : Token} {l : List Token}
    (h : toks.drop p = tk :: l) : toks.drop (p + 1) = l := by
  rw [← List.tail_drop, h]
  rfl

theorem collectKeys_run {toks : List Token} (loc : String) :
    ∀ (kts : List Token) (acc : List TokenValue) (c : PCore) (vt : Token) (rest : List Token),
      kts ≠ [] →
      (∀ k ∈ kts, k.type = .str ∧ k.value.valid = true) →
      vt.type ≠ .comma → vt.type ≠ .comment →
      c.cur.type = .comma →
      toks.drop c.ptr = List.intersperse mkComma kts ++ vt :: rest →
      collectKeys toks loc acc c =
        .ok (acc ++ kts.map (fun k => k.value),
             { cur := vt, ptr := c.ptr + 2 * kts.length, cms := c.cms }) := by
  intro kts
  induction kts with
  | nil => intro _ _ _ _ h; exact absurd rfl h
  | cons k kts' ih =>
    intro acc c vt rest _ hwf hvc hvcm hcomma hdrop
    have hk := hwf k (by simp)
    cases kts' with
    | nil =>
      rw [List.intersperse_singleton, List.singleton_append] at hdrop
      have h1 : nextTok toks c = .ok { cur := k, ptr := c.ptr + 1, cms := c.cms } :=
        nextTok_simple (by rw [hdrop, drop_succ_of_drop_cons hdrop])
          (by rw [hk.1]; intro h; cases h)
      have hd2 : toks.drop (c.ptr + 1) = vt :: rest := by
        rw [drop_succ_of_drop_cons hdrop]
      have h2 : nextTok toks { cur := k, ptr := c.ptr + 1, cms := c.cms } =
          .ok { cur := vt, ptr := c.ptr + 1 + 1, cms := c.cms } :=
        nextTok_simple (by rw [hd2, drop_succ_of_drop_cons hd2]) hvcm
      rw [collectKeys_step hcomma h1 hk.1 hk.2 h2,
          collectKeys_done (by simpa using hvc)]
      rw [show c.ptr + 1 + 1 = c.ptr + 2 * 1 by omega]
      simp
    | cons k2 t =>
      rw [List.intersperse_cons_cons] at hdrop
      simp only [List.cons_append] at hdrop
      have h1 : nextTok toks c = .ok { cur := k, ptr := c.ptr + 1, cms := c.cms } :=
        nextTok_simple (by rw [hdrop, drop_succ_of_drop_cons hdrop])
          (by rw [hk.1]; intro h; cases h)
      have hd2 : toks.drop (c.ptr + 1) = mkComma :: (List.intersperse mkComma (k2 :: t) ++ vt :: rest) := by
        rw [drop_succ_of_drop_cons hdrop]
      have h2 : nextTok toks { cur := k, ptr := c.ptr + 1, cms := c.cms } =
          .ok { cur := mkComma, ptr := c.ptr + 1 + 1, cms := c.cms } :=
        nextTok_simple (by rw [hd2, drop_succ_of_drop_cons hd2]) (by intro h; cases h)
      rw [collectKeys_step hcomma h1 hk.1 hk.2 h2]
      rw [ih (acc ++ [k.value]) { cur := mkComma, ptr := c.ptr + 1 + 1, cms := c.cms } vt rest
            (by simp) (fun k' hk' => hwf k' (by simp [hk'])) hvc hvcm rfl
            (by rw [drop_succ_of_drop_cons hd2])]
      rw [show c.ptr + 1 + 1 + 2 * (k2 :: t).length = c.ptr + 2 * (k :: k2 :: t).length by
            simp [List.length_cons]; omega]
      simp

theorem validProp_types {t : Token} (h : isValidPropValueToken t = true) :
    t.type = .boolean ∨ t.type = .str ∨ t.type = .number := by
  simpa [isValidPropValueToken, Bool.or_eq_true, beq_iff_eq, or_assoc] using h

theorem drop_after_run {toks : List Token} {p n : Nat} {inter : List Token} {vt : Token}
    {rest : List Token} (h : toks.drop p = inter ++ vt :: rest) (hlen : inter.length = n) :
    toks.drop (p + (n + 1)) = rest := by
  rw [← List.drop_drop, h, show n + 1 = inter.length + 1 by rw [hlen]]
  rw [show inter ++ vt :: rest = (inter ++ [vt]) ++ rest by simp]
  rw [show inter.length + 1 = (inter ++ [vt]).length by simp]
  exact List.drop_left _ _

theorem length_intersperse {α : Type} (sep : α) (l : List α) :
    (List.intersperse sep l).length = 2 * l.length - 1 := by
  induction l with
  | nil => simp [List.intersperse]
  | cons a t ih =>
    cases t with
    | nil => simp [List.intersperse_singleton]
    | cons b t2 =>
      rw [List.intersperse_cons_cons]
      simp only [List.length_cons] at *
      omega

/-- C5: in the multi-key branch every comma must be followed by a String
token — any other (non-comment) token is the fatal `Expected string`
error — and when a scalar (Boolean/String/Number) token follows the
collected key list, that one scalar becomes the value of every collected
key in the resulting mapping. -/
theorem c5_comma_keys_share_scalar :
    (∀ (tk1 ct bad : Token) (rest : List Token),
        tk1.type = .str → tk1.value.valid = true → ct.type = .comma →
        bad.type ≠ .str → bad.type ≠ .comment →
        parseTop (tk1 :: ct :: bad :: rest) =
          .panic (unexpectedPanic "Expected string" bad "")) ∧
    (∀ (ks : List Token) (vt : Token),
        ks ≠ [] →
        (∀ k ∈ ks, k.type = .str ∧ k.value.valid = true) →
        isValidPropValueToken vt = true →
        ∃ res : List (TokenValue × GVal) × PCore,
          parseTop (List.intersperse mkComma ks ++ [vt, mkEOF]) = .ok res ∧
          ∀ k ∈ ks, mapLookup res.1 k.value = some (GVal.scalar vt.value)) := by
  constructor
  · intro tk1 ct bad rest hstr hvalid hct hbad hbadc
    have h0 : nextTok (tk1 :: ct :: bad :: rest) { cur := zeroToken, ptr := 0, cms := [] } =
        .ok { cur := tk1, ptr := 0 + 1, cms := [] } :=
      nextTok_simple rfl (by rw [hstr]; intro h; cases h)
    have h1 : nextTok (tk1 :: ct :: bad :: rest) { cur := tk1, ptr := 0 + 1, cms := [] } =
        .ok { cur := ct, ptr := 0 + 1 + 1, cms := [] } :=
      nextTok_simple rfl (by rw [hct]; intro h; cases h)
    have h2 : nextTok (tk1 :: ct :: bad :: rest) { cur := ct, ptr := 0 + 1 + 1, cms := [] } =
        .ok { cur := bad, ptr := 0 + 1 + 1 + 1, cms := [] } :=
      nextTok_simple rfl hbadc
    have hKP := parseLoop_keysPanic (tk1 :: ct :: bad :: rest) "" 0 []
      hstr hvalid h1 (collectKeys_expectedString hct h2 hbad)
    rw [parseTop, h0]
    dsimp only
    exact hKP
  · intro ks vt hne hwf hval
    have hvt := validProp_types hval
    have hvtc : vt.type ≠ .comma := by rcases hvt with h | h | h <;> simp [h]
    have hvtcm : vt.type ≠ .comment := by rcases hvt with h | h | h <;> simp [h]
    have hvtcl : vt.type ≠ .colon := by rcases hvt with h | h | h <;> simp [h]
    obtain ⟨k0, kts, rfl⟩ := List.exists_cons_of_ne_nil hne
    have hk0 := hwf k0 (by simp)
    cases kts with
    | nil =>
      rw [List.intersperse_singleton, List.singleton_append]
      have h0 : nextTok (k0 :: [vt, mkEOF]) { cur := zeroToken, ptr := 0, cms := [] } =
          .ok { cur := k0, ptr := 0 + 1, cms := [] } :=
        nextTok_simple rfl (by rw [hk0.1]; intro h; cases h)
      have h1 : nextTok (k0 :: [vt, mkEOF]) { cur := k0, ptr := 0 + 1, cms := [] } =
          .ok { cur := vt, ptr := 0 + 1 + 1, cms := [] } :=
        nextTok_simple rfl hvtcm
      have h4 : nextTok (k0 :: [vt, mkEOF]) { cur := vt, ptr := 0 + 1 + 1, cms := [] } =
          .ok { cur := mkEOF, ptr := 0 + 1 + 1 + 1, cms := [] } :=
        nextTok_simple rfl (by intro h; cases h)
      have hSc := parseLoop_scalar (k0 :: [vt, mkEOF]) "" 0 []
        hk0.1 hk0.2 h1 (collectKeys_done (by simpa using hvtc)) hvtcl hval h4
      have hEOF := parseLoop_eof (k0 :: [vt, mkEOF]) "" 0
        ([k0.value].foldl (fun m k => mapInsert m k (GVal.scalar vt.value)) [])
        { cur := mkEOF, ptr := 0 + 1 + 1 + 1, cms := [] } rfl
      rw [parseTop, h0]
      dsimp only
      rw [hSc, hEOF]
      refine ⟨_, rfl, ?_⟩
      intro k hk
      simp only [List.mem_singleton] at hk
      subst hk
      simp [mapInsert, mapLookup]
    | cons k2 t =>
      rw [List.intersperse_cons_cons]
      simp only [List.cons_append]
      set toks := k0 :: mkComma :: (List.intersperse mkComma (k2 :: t) ++ [vt, mkEOF]) with htoks
      have h0 : nextTok toks { cur := zeroToken, ptr := 0, cms := [] } =
          .ok { cur := k0, ptr := 0 + 1, cms := [] } :=
        nextTok_simple rfl (by rw [hk0.1]; intro h; cases h)
      have h1 : nextTok toks { cur := k0, ptr := 0 + 1, cms := [] } =
          .ok { cur := mkComma, ptr := 0 + 1 + 1, cms := [] } :=
        nextTok_simple rfl (by intro h; cases h)
      have hdrop : toks.drop (0 + 1 + 1) = List.intersperse mkComma (k2 :: t) ++ vt :: [mkEOF] := rfl
      have hrun := collectKeys_run "" (k2 :: t) [k0.value]
        { cur := mkComma, ptr := 0 + 1 + 1, cms := [] } vt [mkEOF] (by simp)
        (fun k' hk' => hwf k' (by simp [hk'])) hvtc hvtcm rfl hdrop
      have hd4 : toks.drop (0 + 1 + 1 + 2 * (k2 :: t).length) = [mkEOF] := by
        have := drop_after_run hdrop
          (show (List.intersperse mkComma (k2 :: t)).length = 2 * (k2 :: t).length - 1 by
            rw [length_intersperse])
        rw [show 0 + 1 + 1 + 2 * (k2 :: t).length =
              0 + 1 + 1 + (2 * (k2 :: t).length - 1 + 1) by simp [List.length_cons]; omega]
        exact this
      have h4 : nextTok toks { cur := vt, ptr := 0 + 1 + 1 + 2 * (k2 :: t).length, cms := [] } =
          .ok { cur := mkEOF, ptr := 0 + 1 + 1 + 2 * (k2 :: t).length + 1, cms := [] } :=
        nextTok_simple (by rw [hd4, drop_succ_of_drop_cons hd4]) (by intro h; cases h)
      have hSc := parseLoop_scalar toks "" 0 []
        hk0.1 hk0.2 h1 hrun hvtcl hval h4
      have hEOF := parseLoop_eof toks "" 0
        (([k0.value] ++ (k2 :: t).map fun k => k.value).foldl
          (fun m k => mapInsert m k (GVal.scalar vt.value)) [])
        { cur := mkEOF, ptr := 0 + 1 + 1 + 2 * (k2 :: t).length + 1, cms := [] } rfl
      rw [parseTop, h0]
      dsimp only
      rw [hSc, hEOF]
      refine ⟨_, rfl, ?_⟩
      intro k hk
      have hkmem : k.value ∈ [k0.value] ++ (k2 :: t).map (fun k => k.value) := by
        rcases List.mem_cons.mp hk with h | h
        · subst h; simp
        · simp only [List.mem_append, List.mem_map]
          exact Or.inr ⟨k, h, rfl⟩
      simp only [mapLookup_foldl, if_pos hkmem]

/-- Witness for C5: `a, :` is the `Expected string` error; `a, b 7` maps
both `a` and `b` to the scalar `7`. -/
theorem c5_comma_keys_share_scalar_witness :
    parseTop [{ type := .str, value := tvStr "a" }, mkComma,
              { type := .colon, value := tvVoid }] =
      .panic (unexpectedPanic "Expected string" { type := .colon, value := tvVoid } "") ∧
    (∃ res : List (TokenValue × GVal) × PCore,
        parseTop (List.intersperse mkComma
            [{ type := .str, value := tvStr "a" }, { type := .str, value := tvStr "b" }] ++
          [{ type := .number, value := tvInt 7 }, mkEOF]) = .ok res ∧
        ∀ k ∈ [({ type := .str, value := tvStr "a" } : Token),
               { type := .str, value := tvStr "b" }],
          mapLookup res.1 k.value =
            some (GVal.scalar ({ type := .number, value := tvInt 7 } : Token).value)) :=
  ⟨c5_comma_keys_share_scalar.1 _ _ _ [] rfl rfl rfl (by decide) (by decide),
   c5_comma_keys_share_scalar.2 _ _ (by decide) (by decide) (by decide)⟩

/-- C8: when the same literal key occurs twice at the same nesting level,
the value bound last overwrites the earlier one — the resulting mapping
holds exactly one binding for the key, whose value comes from the final
occurrence. -/
theorem c8_duplicate_keys_last_wins (kt1 kt2 v1t v2t : Token)
    (hk1 : kt1.type = .str) (hk1v : kt1.value.valid = true)
    (hk2 : kt2.type = .str) (hkeq : kt2.value = kt1.value)
    (hv1 : isValidPropValueToken v1t = true) (hv2 : isValidPropValueToken v2t = true) :
    ∃ c', parseTop [kt1, v1t, mkNL, kt2, v2t, mkEOF] =
      .ok ([(kt1.value, GVal.scalar v2t.value)], c') := by
  have hvt1 := validProp_types hv1
  have hvt2 := validProp_types hv2
  have hv1cm : v1t.type ≠ .comment := by rcases hvt1 with h | h | h <;> simp [h]
  have hv1c : v1t.type ≠ .comma := by rcases hvt1 with h | h | h <;> simp [h]
  have hv1cl : v1t.type ≠ .colon := by rcases hvt1 with h | h | h <;> simp [h]
  have hv2cm : v2t.type ≠ .comment := by rcases hvt2 with h | h | h <;> simp [h]
  have hv2c : v2t.type ≠ .comma := by rcases hvt2 with h | h | h <;> simp [h]
  have hv2cl : v2t.type ≠ .colon := by rcases hvt2 with h | h | h <;> simp [h]
  have hk2v : kt2.value.valid = true := by rw [hkeq]; exact hk1v
  have h0 : nextTok [kt1, v1t, mkNL, kt2, v2t, mkEOF]
      { cur := zeroToken, ptr := 0, cms := [] } =
      .ok { cur := kt1, ptr := 0 + 1, cms := [] } :=
    nextTok_simple rfl (by rw [hk1]; intro h; cases h)
  have h1 : nextTok [kt1, v1t, mkNL, kt2, v2t, mkEOF]
      { cur := kt1, ptr := 0 + 1, cms := [] } =
      .ok { cur := v1t, ptr := 0 + 1 + 1, cms := [] } :=
    nextTok_simple rfl hv1cm
  have h4 : nextTok [kt1, v1t, mkNL, kt2, v2t, mkEOF]
      { cur := v1t, ptr := 0 + 1 + 1, cms := [] } =
      .ok { cur := mkNL, ptr := 0 + 1 + 1 + 1, cms := [] } :=
    nextTok_simple rfl (by intro h; cases h)
  have hSc1 := parseLoop_scalar [kt1, v1t, mkNL, kt2, v2t, mkEOF] "" 0 []
    hk1 hk1v h1 (collectKeys_done (by simpa using hv1c))
    hv1cl hv1 h4
  have hNL : nextTok [kt1, v1t, mkNL, kt2, v2t, mkEOF]
      { cur := mkNL, ptr := 0 + 1 + 1 + 1, cms := [] } =
      .ok { cur := kt2, ptr := 0 + 1 + 1 + 1 + 1, cms := [] } :=
    nextTok_simple rfl (by rw [hk2]; intro h; cases h)
  have hN := parseLoop_newline0 [kt1, v1t, mkNL, kt2, v2t, mkEOF] ""
    [(kt1.value, GVal.scalar v1t.value)] rfl hNL
  have h1b : nextTok [kt1, v1t, mkNL, kt2, v2t, mkEOF]
      { cur := kt2, ptr := 0 + 1 + 1 + 1 + 1, cms := [] } =
      .ok { cur := v2t, ptr := 0 + 1 + 1 + 1 + 1 + 1, cms := [] } :=
    nextTok_simple rfl hv2cm
  have h4b : nextTok [kt1, v1t, mkNL, kt2, v2t, mkEOF]
      { cur := v2t, ptr := 0 + 1 + 1 + 1 + 1 + 1, cms := [] } =
      .ok { cur := mkEOF, ptr := 0 + 1 + 1 + 1 + 1 + 1 + 1, cms := [] } :=
    nextTok_simple rfl (by intro h; cases h)
  have hSc2 := parseLoop_scalar [kt1, v1t, mkNL, kt2, v2t, mkEOF] "" 0
    [(kt1.value, GVal.scalar v1t.value)] hk2 hk2v h1b
    (collectKeys_done (by simpa using hv2c)) hv2cl hv2 h4b
  have hEOF := parseLoop_eof [kt1, v1t, mkNL, kt2, v2t, mkEOF] "" 0
    ([kt2.value].foldl
      (fun m k => mapInsert m k (GVal.scalar v2t.value)) [(kt1.value, GVal.scalar v1t.value)])
    { cur := mkEOF, ptr := 0 + 1 + 1 + 1 + 1 + 1 + 1, cms := [] } rfl
  rw [parseTop, h0]
  dsimp only
  rw [hSc1]
  dsimp only
  rw [show List.foldl (fun m k => mapInsert m k (GVal.scalar v1t.value)) [] [kt1.value] =
        [(kt1.value, GVal.scalar v1t.value)] from rfl]
  rw [hN, hSc2, hEOF]
  rw [show List.foldl (fun m k => mapInsert m k (GVal.scalar v2t.value))
        [(kt1.value, GVal.scalar v1t.value)] [kt2.value] =
        mapInsert [(kt1.value, GVal.scalar v1t.value)] kt2.value (GVal.scalar v2t.value)
        from rfl]
  rw [hkeq]
  rw [show mapInsert [(kt1.value, GVal.scalar v1t.value)] kt1.value (GVal.scalar v2t.value) =
        [(kt1.value, GVal.scalar v2t.value)] by rw [mapInsert, if_pos rfl]]
  exact ⟨_, rfl⟩

/-- Witness for C8: `a 1 ⏎ a 2` parses to the single binding `a ↦ 2`. -/
theorem c8_duplicate_keys_last_wins_witness :
    ∃ c', parseTop [{ type := .str, value := tvStr "a" },
                    { type := .number, value := tvInt 1 }, mkNL,
                    { type := .str, value := tvStr "a" },
                    { type := .number, value := tvInt 2 }, mkEOF] =
      .ok ([(tvStr "a", GVal.scalar (tvInt 2))], c') := by
  have h := c8_duplicate_keys_last_wins
    { type := .str, value := tvStr "a" } { type := .str, value := tvStr "a" }
    { type := .number, value := tvInt 1 } { type := .number, value := tvInt 2 }
    rfl rfl rfl rfl (by decide) (by decide)
  simpa using h

/-! ### Round trip (C1) -/

/-- C1 (counterexample): `"# a\n"` is well-formed (it parses to the empty
document), but encoding that document back yields the empty text, not the
original input — comments never reach the document, so byte-identical
re-encoding fails. -/
theorem c1_counterexample :
    ParseLockFileData "# a\n".toList = .ok [] ∧
    Encode [] = "" ∧
    ("" : String) ≠ "# a\n" := by
  refine ⟨?_, by decide, by decide⟩
  simp [ParseLockFileData, rawPipeline, tokenizeData, tokLoop, tokStep, buildTok,
        parseTop, nextTok, nextAux, onComment, goTrimSpace, isGoSpace,
        versionRegexMatch, isDigitCh, zeroToken, parseLoop, collectKeys,
        toLockFile, jsonObjEntries, collapseAssoc, sortAssoc, recoverConv,
        List.isPrefixOf, countSpacesFrom, pure, Except.pure, TokenValue.isStringVal,
        tvStr, tvVoid]

/-- C1 (amended): parsing is not injective on well-formed inputs — two
different texts parse to the same document — so no encoder whatsoever can
reproduce every well-formed input byte-for-byte; the round-trip identity
can hold only for texts the Encoder itself produced. -/
theorem c1_roundtrip_impossible :
    ∃ t1 t2 : List Char, t1 ≠ t2 ∧
      ParseLockFileData t1 = .ok [] ∧
      ParseLockFileData t2 = .ok [] ∧
      ∀ enc : LockFile → List Char, enc [] ≠ t1 ∨ enc [] ≠ t2 := by
  refine ⟨"# a\n".toList, "# b\n".toList, by decide, ?_, ?_, ?_⟩
  · simp [ParseLockFileData, rawPipeline, tokenizeData, tokLoop, tokStep, buildTok,
          parseTop, nextTok, nextAux, onComment, goTrimSpace, isGoSpace,
          versionRegexMatch, isDigitCh, zeroToken, parseLoop, collectKeys,
          toLockFile, jsonObjEntries, collapseAssoc, sortAssoc, recoverConv,
          List.isPrefixOf, countSpacesFrom, pure, Except.pure, TokenValue.isStringVal,
          tvStr, tvVoid]
  · simp [ParseLockFileData, rawPipeline, tokenizeData, tokLoop, tokStep, buildTok,
          parseTop, nextTok, nextAux, onComment, goTrimSpace, isGoSpace,
          versionRegexMatch, isDigitCh, zeroToken, parseLoop, collectKeys,
          toLockFile, jsonObjEntries, collapseAssoc, sortAssoc, recoverConv,
          List.isPrefixOf, countSpacesFrom, pure, Except.pure, TokenValue.isStringVal,
          tvStr, tvVoid]
  · intro enc
    by_cases h : enc [] = "# a\n".toList
    · right
      rw [h]
      decide
    · exact Or.inl h

end YarnLock
